import Mathlib

/-!
Verification development for the seaduck SciServer notebooks
(KangerFjord.ipynb, LLC4320.ipynb, ECCO_plot_stations.ipynb).

The notebooks call into the seaduck library (KnW kernels,
eulerian.Position interpolation, Particle trajectory integration).
The library itself is not part of this repository, so the library-side
behaviour is modelled from the specification, while every piece of code
that does appear in the notebooks (the dummy weight function, the
in-place hfuncs hack, the too_large / uarray / varray configuration
sequence) is embedded directly from the notebook source.

Real numbers of the model are rationals, so every definition is
executable and exact; floating-point tolerance statements of the
specification become exact equalities here.
-/

set_option linter.unusedVariables false

namespace Seaduck

/-- A scalar field on the structured grid: a value per integer cell
index, `none` where the field is missing (land / masked / NaN). -/
abbrev Field := Int → Int → Option ℚ

/-- Modelled from the spec: a kernel (seaduck `KnW`) holds an ordered
list of stencils (`kernels`), each a fixed list of relative integer
offsets from the base cell, together with one weight function per
stencil (`hfuncs`) mapping in-cell local coordinates (rx, ry) to a
weight vector. -/
structure KnW where
  kernels : List (List (Int × Int))
  hfuncs : List (ℚ → ℚ → List ℚ)

/-- Modelled from the spec: default bilinear weight function on the
unit cell, for the offsets (0,0), (1,0), (0,1), (1,1).  Its weights
sum to one (partition of unity). -/
def defaultWeights (rx ry : ℚ) : List ℚ :=
  [(1 - rx) * (1 - ry), rx * (1 - ry), (1 - rx) * ry, rx * ry]

/-- Modelled from the spec: weight function of the fallback
nearest-point stencil; a single weight of one. -/
def nearestWeights (rx ry : ℚ) : List ℚ := [1]

/-- Modelled from the spec: the four-point bilinear stencil. -/
def defaultStencil : List (Int × Int) := [(0, 0), (1, 0), (0, 1), (1, 1)]

/-- Modelled from the spec: the one-point fallback stencil. -/
def nearestStencil : List (Int × Int) := [(0, 0)]

/-- Modelled from the spec: the default kernel `sd.KnW()` — a cascade
of a four-point bilinear stencil and a one-point fallback used where
the larger stencil hits missing data. -/
def KnW.default : KnW :=
  ⟨[defaultStencil, nearestStencil], [defaultWeights, nearestWeights]⟩

/-- Gather the field values under a stencil anchored at cell
(ix, iy); `none` when any needed value is missing. -/
def gather (fld : Field) (ix iy : Int) : List (Int × Int) → Option (List ℚ)
  | [] => some []
  | o :: rest =>
    match fld (ix + o.1) (iy + o.2), gather fld ix iy rest with
    | some a, some l => some (a :: l)
    | _, _ => none

/-- Dot product of a weight vector with gathered values. -/
def dot : List ℚ → List ℚ → ℚ
  | [], _ => 0
  | _, [] => 0
  | a :: xs, b :: ys => a * b + dot xs ys

/-- Modelled from the spec: cascade evaluation — use the first stencil
whose values are all available, weighting them with the matching
weight function. -/
def applyKernel (fld : Field) (ix iy : Int) (rx ry : ℚ) :
    List (List (Int × Int)) → List (ℚ → ℚ → List ℚ) → Option ℚ
  | [], _ => none
  | _, [] => none
  | st :: sts, w :: ws =>
    match gather fld ix iy st with
    | some vals => some (dot (w rx ry) vals)
    | none => applyKernel fld ix iy rx ry sts ws

/-- Modelled from the spec: `eulerian.Position.interpolate` for one
query point.  Cells are unit cells of index space: the resolved cell
of x is ⌊x⌋ and the local coordinate is x - ⌊x⌋. -/
def interpolate (fld : Field) (kn : KnW) (x y : ℚ) : Option ℚ :=
  applyKernel fld ⌊x⌋ ⌊y⌋ (x - ⌊x⌋) (y - ⌊y⌋) kn.kernels kn.hfuncs

/-- Batch interpolation over a list of query points. -/
def interpolateBatch (fld : Field) (kn : KnW) (pts : List (ℚ × ℚ)) :
    List (Option ℚ) :=
  pts.map (fun q => interpolate fld kn q.1 q.2)

/-- The everywhere-one field. -/
def onesField : Field := fun _ _ => some 1

/-- From src/KangerFjord.ipynb: the ones dataset built by
`xr.ones_like` from an existing field — a field of ones carrying the
availability pattern of that field. -/
def onesLike (fld : Field) : Field := fun i j => (fld i j).map (fun _ => 1)

/-- From src/KangerFjord.ipynb: `dummy_weight(rx, ry, ans)` returns a
vector of ones of length `ans` for each query point (here: one query
point at a time). -/
def dummy_weight (rx ry : ℚ) (ans : ℕ) : List ℚ := List.replicate ans 1

/-- From src/KangerFjord.ipynb:
`kernel_to_be_hacked.hfuncs = [partial(dummy_weight, ans=len(k)) for k in kernel.kernels]`
— overwrite the weight functions of `kn` with constant-one functions
sized by the stencils of `source`. -/
def hackHfuncs (source kn : KnW) : KnW :=
  { kn with hfuncs := source.kernels.map (fun k => fun rx ry => dummy_weight rx ry k.length) }

/-- From src/KangerFjord.ipynb: the environment of the two kernels,
`kernel = sd.KnW()` and `kernel_to_be_hacked = sd.KnW()`. -/
structure KernelEnv where
  kernel : KnW
  kernel_to_be_hacked : KnW

/-- The two identically constructed default kernels of the notebook. -/
def kenv0 : KernelEnv := ⟨KnW.default, KnW.default⟩

/-- From src/KangerFjord.ipynb: the hacking step, which assigns new
`hfuncs` to `kernel_to_be_hacked` (built from `kernel.kernels`) and
leaves `kernel` alone. -/
def hackStep (e : KernelEnv) : KernelEnv :=
  { e with kernel_to_be_hacked := hackHfuncs e.kernel e.kernel_to_be_hacked }

/-- Size of the stencil the cascade uses at a given anchor cell: the
length of the first stencil whose values are all available. -/
def usedStencilSize (fld : Field) (ix iy : Int) : List (List (Int × Int)) → Option ℕ
  | [] => none
  | st :: sts =>
    match gather fld ix iy st with
    | some _ => some st.length
    | none => usedStencilSize fld ix iy sts

lemma dot_replicate_one (n : ℕ) : dot (List.replicate n 1) (List.replicate n 1) = n := by
  induction n with
  | zero => simp [dot]
  | succ k ih =>
    simp only [List.replicate_succ, dot, ih]
    push_cast
    ring

lemma gather_onesLike_eq_replicate (fld : Field) (ix iy : Int) :
    ∀ offs l, gather (onesLike fld) ix iy offs = some l → l = List.replicate offs.length 1 := by
  intro offs
  induction offs with
  | nil =>
    intro l h
    simp only [gather, Option.some.injEq] at h
    simp [← h]
  | cons o rest ih =>
    intro l h
    simp only [gather] at h
    rcases hf : fld (ix + o.1) (iy + o.2) with _ | a
    · rw [show onesLike fld (ix + o.1) (iy + o.2) = none by simp [onesLike, hf]] at h
      simp at h
    · rw [show onesLike fld (ix + o.1) (iy + o.2) = some 1 by simp [onesLike, hf]] at h
      rcases hr : gather (onesLike fld) ix iy rest with _ | tl
      · rw [hr] at h
        simp at h
      · rw [hr] at h
        simp only [Option.some.injEq] at h
        subst h
        simp [List.replicate_succ, ih tl hr]

lemma applyKernel_hacked (fld : Field) (ix iy : Int) (rx ry : ℚ) :
    ∀ sts : List (List (Int × Int)),
      applyKernel (onesLike fld) ix iy rx ry sts
          (sts.map (fun k => fun a b => dummy_weight a b k.length))
        = (usedStencilSize (onesLike fld) ix iy sts).map (fun n => (n : ℚ)) := by
  intro sts
  induction sts with
  | nil => simp [applyKernel, usedStencilSize]
  | cons st rest ih =>
    simp only [List.map_cons, applyKernel, usedStencilSize]
    rcases hg : gather (onesLike fld) ix iy st with _ | vals
    · simpa using ih
    · have hv := gather_onesLike_eq_replicate fld ix iy st vals hg
      subst hv
      simp [dummy_weight, dot_replicate_one]

/-- From src/LLC4320.ipynb: the loading-policy-relevant state of a
seaduck Particle, namely the too_large flag and the optionally
materialized velocity arrays uarray and varray. -/
structure ParticleConfig where
  too_large : Bool
  uarray : Option (List ℚ)
  varray : Option (List ℚ)

/-- Modelled from the spec (and the notebook prose): constructing
sd.Particle on the large LLC4320 dataset selects the lazy policy, so
too_large is true and no field array is materialized at construction. -/
def mkParticleLLC4320 : ParticleConfig := ⟨true, none, none⟩

/-- From src/LLC4320.ipynb: the runtime assignment to p.too_large. -/
def set_too_large (b : Bool) (p : ParticleConfig) : ParticleConfig :=
  { p with too_large := b }

/-- From src/LLC4320.ipynb: the runtime assignment to p.uarray. -/
def set_uarray (a : List ℚ) (p : ParticleConfig) : ParticleConfig :=
  { p with uarray := some a }

/-- From src/LLC4320.ipynb: the runtime assignment to p.varray. -/
def set_varray (a : List ℚ) (p : ParticleConfig) : ParticleConfig :=
  { p with varray := some a }

/-- From src/LLC4320.ipynb: the configuration sequence the notebook
performs after constructing the particle: set too_large to false, then
materialize uarray and varray by explicit assignment. -/
def llc4320ConfigSeq (u v : List ℚ) : ParticleConfig :=
  set_varray v (set_uarray u (set_too_large false mkParticleLLC4320))

/-- C2: interpolating the everywhere-one field with the default kernel
returns exactly 1 at every query point, and each default weight
function sums to one at all local coordinates (partition of unity;
exact over the rationals, hence within any floating-point tolerance). -/
theorem C2_partition_of_unity :
    (∀ x y : ℚ, interpolate onesField KnW.default x y = some 1) ∧
    (∀ rx ry : ℚ, (defaultWeights rx ry).sum = 1 ∧ (nearestWeights rx ry).sum = 1) := by
  constructor
  · intro x y
    have h : interpolate onesField KnW.default x y
        = some (dot (defaultWeights (x - ⌊x⌋) (y - ⌊y⌋)) [1, 1, 1, 1]) := rfl
    rw [h]
    simp only [dot, defaultWeights, Option.some.injEq]
    ring
  · intro rx ry
    constructor
    · simp only [defaultWeights, List.sum_cons, List.sum_nil]
      ring
    · simp [nearestWeights]

/-- C3: interpolating a ones-like field through a kernel whose weight
functions were all replaced by the constant-one dummy_weight, exactly
as the notebook does, returns for every query point the size of the
stencil the kernel cascade used at that point. -/
theorem C3_count_contributing_neighbors (fld : Field) (kn : KnW) (x y : ℚ) :
    interpolate (onesLike fld) (hackHfuncs kn kn) x y
      = (usedStencilSize (onesLike fld) ⌊x⌋ ⌊y⌋ kn.kernels).map (fun n => (n : ℚ)) := by
  simpa [interpolate, hackHfuncs] using
    applyKernel_hacked fld ⌊x⌋ ⌊y⌋ (x - ⌊x⌋) (y - ⌊y⌋) kn.kernels

/-- C7 counterexample: the claim says changing a kernel's behaviour
requires constructing a new kernel instance; but the notebook's hack
step changes the behaviour of the existing kernel_to_be_hacked
instance in place (by assigning its hfuncs attribute): interpolation
through that same instance differs before and after the step, at the
concrete query point (0, 0) of the everywhere-one field (1 before the
hack, 4 afterwards), with no new instance constructed. -/
theorem C7_counterexample :
    interpolate onesField ((hackStep kenv0).kernel_to_be_hacked) 0 0
      ≠ interpolate onesField kenv0.kernel_to_be_hacked 0 0 := by
  have h1 : interpolate onesField ((hackStep kenv0).kernel_to_be_hacked) 0 0
      = some (dot (List.replicate 4 1) [1, 1, 1, 1]) := rfl
  have h2 : interpolate onesField kenv0.kernel_to_be_hacked 0 0
      = some (dot (defaultWeights ((0 : ℚ) - ⌊(0 : ℚ)⌋) ((0 : ℚ) - ⌊(0 : ℚ)⌋)) [1, 1, 1, 1]) := rfl
  rw [h1, h2]
  simp only [dot, defaultWeights, List.replicate, Int.floor_zero, Int.cast_zero, sub_zero,
    ne_eq, Option.some.injEq]
  norm_num

/-- C7 amended: replacing the weight functions of one kernel instance
changes neither the other instance nor its own stencils, and
interpolation through the unmodified kernel is unaffected by the hack;
however a kernel's behaviour can be changed by assigning its hfuncs in
place, without constructing a new instance (see the counterexample). -/
theorem C7_kernel_independence (e : KernelEnv) :
    (hackStep e).kernel = e.kernel ∧
    (hackStep e).kernel_to_be_hacked.kernels = e.kernel_to_be_hacked.kernels ∧
    ∀ (fld : Field) (x y : ℚ),
      interpolate fld (hackStep e).kernel x y = interpolate fld e.kernel x y :=
  ⟨rfl, rfl, fun _ _ _ => rfl⟩

/-- C8 counterexample: the claim says the loading policy is not
changed by ad hoc attribute toggling at runtime; but the notebook
assigns p.too_large after construction, so the policy in force after
the notebook's configuration sequence differs from the policy selected
when the particle was constructed. -/
theorem C8_counterexample :
    (llc4320ConfigSeq [] []).too_large ≠ mkParticleLLC4320.too_large := by
  decide

/-- C8 amended: the loading policy is carried as a per-particle
boolean attribute chosen at construction (too_large = true for the
large dataset, nothing materialized), and the notebook switches to
eager use by assigning too_large = false at runtime and then
materializing the field arrays by explicit assignment to p.uarray and
p.varray — materialization happens at those assignments, not at
configuration time. -/
theorem C8_loading_policy (u v : List ℚ) :
    mkParticleLLC4320.too_large = true ∧
    mkParticleLLC4320.uarray = none ∧
    mkParticleLLC4320.varray = none ∧
    (llc4320ConfigSeq u v).too_large = false ∧
    (llc4320ConfigSeq u v).uarray = some u ∧
    (llc4320ConfigSeq u v).varray = some v :=
  ⟨rfl, rfl, rfl, rfl, rfl, rfl⟩

/-- Modelled from the spec: the per-particle status of the integrator,
alive or one of the two terminal states. -/
inductive PStatus where
  | alive
  | exited_domain
  | invalid_field
  deriving DecidableEq, Repr

/-- Modelled from the spec: the velocity-field context of the
integrator — grid-relative velocity components per cell (possibly
missing), the physical cell extents dx and dy, and the domain mask.
The notebooks run two-dimensional surface advection (wname = None), so
the model is horizontal with a passively carried depth. -/
structure VelField where
  u : Int → Int → Option ℚ
  v : Int → Int → Option ℚ
  w : Int → Int → Option ℚ
  dx : Int → Int → ℚ
  dy : Int → Int → ℚ
  inDomain : Int → Int → Bool

/-- Modelled from the spec: a particle — position in grid-index space
(the cell of x is ⌊x⌋), depth, current time, status, and the wname
flag (true when a vertical velocity component name was supplied at
construction, false for wname = None). -/
structure Particle where
  x : ℚ
  y : ℚ
  z : ℚ
  t : ℚ
  status : PStatus
  wname : Bool
  deriving DecidableEq, Repr

/-- Modelled from the spec: estimated time for a coordinate moving at
a given velocity to reach the boundary of its current unit cell; when
the velocity is zero the cell is never left, so the remaining
time-to-target is returned (making the following minimum a no-op). -/
def timeToBoundary (pos vel remaining : ℚ) : ℚ :=
  if 0 < vel then ((⌊pos⌋ : ℚ) + 1 - pos) / vel
  else if vel < 0 then ((⌊pos⌋ : ℚ) - pos) / vel
  else remaining

/-- The clipped sub-step length: the minimum of the remaining
time-to-target and the estimated times-to-cell-boundary in the two
horizontal directions. -/
def clippedDt (T : ℚ) (uv vv : ℚ) (p : Particle) : ℚ :=
  min (T - p.t)
    (min (timeToBoundary p.x uv (T - p.t)) (timeToBoundary p.y vv (T - p.t)))

/-- Euler displacement of one sub-step with the clipped step length. -/
def stepMove (T : ℚ) (uv vv wv : ℚ) (p : Particle) : Particle :=
  { p with
    x := p.x + uv * clippedDt T uv vv p
    y := p.y + vv * clippedDt T uv vv p
    z := p.z + wv * clippedDt T uv vv p
    t := p.t + clippedDt T uv vv p }

/-- Modelled from the spec: one sub-step of the cell-crossing explicit
Euler scheme toward target time T.  A non-alive particle is left
untouched; a particle outside the domain becomes exited_domain; a
missing velocity value makes it invalid_field; otherwise the particle
moves by the Euler displacement over the clipped sub-step length. -/
def subStep (vf : VelField) (T : ℚ) (p : Particle) : Particle :=
  if p.status ≠ .alive then p
  else if vf.inDomain ⌊p.x⌋ ⌊p.y⌋ = false then { p with status := .exited_domain }
  else
    match vf.u ⌊p.x⌋ ⌊p.y⌋, vf.v ⌊p.x⌋ ⌊p.y⌋,
        (if p.wname then vf.w ⌊p.x⌋ ⌊p.y⌋ else some 0) with
    | some uv, some vv, some wv => stepMove T uv vv wv p
    | _, _, _ => { p with status := .invalid_field }

/-- Modelled from the spec: advance repeatedly sub-steps toward the
target time until it is reached, a terminal status triggers, or the
step bound (fuel) is exhausted. -/
def advance (vf : VelField) : ℕ → ℚ → Particle → Particle
  | 0, _, p => p
  | Nat.succ fuel, T, p =>
    if p.status = .alive ∧ p.t < T then advance vf fuel T (subStep vf T p)
    else p

/-- Modelled from the spec: the per-particle trajectory — the state of
one particle after advancing to each checkpoint of the times list in
order. -/
def trajectory (vf : VelField) (fuel : ℕ) : Particle → List ℚ → List Particle
  | _, [] => []
  | p, T :: rest =>
    let p2 := advance vf fuel T p
    p2 :: trajectory vf fuel p2 rest

/-- Modelled from the spec and src/LLC4320.ipynb: one trajectory
snapshot, exposing per-particle arrays for longitude, latitude, depth,
the grid-relative velocities u and v, and the physical cell extents dx
and dy, plus the per-particle status markers. -/
structure Snapshot where
  time : ℚ
  lon : List ℚ
  lat : List ℚ
  dep : List ℚ
  u : List ℚ
  v : List ℚ
  dx : List ℚ
  dy : List ℚ
  status : List PStatus
  deriving Repr

/-- Grid-relative u-velocity reported for a particle (0 where data is
missing, matching a masked output slot). -/
def snapU (vf : VelField) (p : Particle) : ℚ := (vf.u ⌊p.x⌋ ⌊p.y⌋).getD 0

/-- Grid-relative v-velocity reported for a particle. -/
def snapV (vf : VelField) (p : Particle) : ℚ := (vf.v ⌊p.x⌋ ⌊p.y⌋).getD 0

/-- Physical x-extent of the cell a particle is in. -/
def snapDx (vf : VelField) (p : Particle) : ℚ := vf.dx ⌊p.x⌋ ⌊p.y⌋

/-- Physical y-extent of the cell a particle is in. -/
def snapDy (vf : VelField) (p : Particle) : ℚ := vf.dy ⌊p.x⌋ ⌊p.y⌋

/-- Build the snapshot of a checkpoint from the particle states. -/
def mkSnapshot (vf : VelField) (T : ℚ) (ps : List Particle) : Snapshot :=
  ⟨T, ps.map (fun p => p.x), ps.map (fun p => p.y), ps.map (fun p => p.z),
    ps.map (snapU vf), ps.map (snapV vf), ps.map (snapDx vf), ps.map (snapDy vf),
    ps.map (fun p => p.status)⟩

/-- The batch particle states after each checkpoint. -/
def runStates (vf : VelField) (fuel : ℕ) : List Particle → List ℚ → List (List Particle)
  | _, [] => []
  | ps, T :: rest =>
    let ps2 := ps.map (advance vf fuel T)
    ps2 :: runStates vf fuel ps2 rest

/-- The snapshots recorded at each checkpoint. -/
def runCheckpoints (vf : VelField) (fuel : ℕ) : List Particle → List ℚ → List Snapshot
  | _, [] => []
  | ps, T :: rest =>
    let ps2 := ps.map (advance vf fuel T)
    mkSnapshot vf T ps2 :: runCheckpoints vf fuel ps2 rest

/-- Modelled from the spec and the src call
p.to_list_of_time(dest, update_stops=[]): advance the whole batch to
every checkpoint of the ascending times list, returning the pair of
the stop times and the list of snapshots (one per checkpoint). -/
def to_list_of_time (vf : VelField) (fuel : ℕ) (ps : List Particle) (times : List ℚ) :
    List ℚ × List Snapshot :=
  (times, runCheckpoints vf fuel ps times)

/-- Squared physical speed recoverable from a snapshot slot, as the
notebooks compute it via hypot(u * dx, v * dy). -/
def physSpeedSq (s : Snapshot) (i : ℕ) : Option ℚ :=
  match s.u[i]?, s.v[i]?, s.dx[i]?, s.dy[i]? with
  | some uv, some vv, some dxv, some dyv => some ((uv * dxv) ^ 2 + (vv * dyv) ^ 2)
  | _, _, _, _ => none

lemma timeToBoundary_nonneg (pos vel remaining : ℚ) (h : 0 ≤ remaining) :
    0 ≤ timeToBoundary pos vel remaining := by
  unfold timeToBoundary
  split_ifs with h1 h2
  · apply div_nonneg _ h1.le
    have := Int.lt_floor_add_one pos
    linarith
  · refine div_nonneg_iff.mpr (Or.inr ⟨?_, h2.le⟩)
    have := Int.floor_le pos
    linarith
  · exact h

lemma clippedDt_nonneg (T : ℚ) (uv vv : ℚ) (p : Particle) (h : p.t ≤ T) :
    0 ≤ clippedDt T uv vv p := by
  refine le_min (by linarith) (le_min ?_ ?_)
  · exact timeToBoundary_nonneg p.x uv (T - p.t) (by linarith)
  · exact timeToBoundary_nonneg p.y vv (T - p.t) (by linarith)

lemma clip_in_cell (x vel remaining dt : ℚ) (h0 : 0 ≤ dt)
    (hb : dt ≤ timeToBoundary x vel remaining) :
    (⌊x⌋ : ℚ) ≤ x + vel * dt ∧ x + vel * dt ≤ (⌊x⌋ : ℚ) + 1 := by
  have hfl : (⌊x⌋ : ℚ) ≤ x := Int.floor_le x
  have hfu : x < (⌊x⌋ : ℚ) + 1 := Int.lt_floor_add_one x
  unfold timeToBoundary at hb
  split_ifs at hb with h1 h2
  · have hmul : vel * dt ≤ (⌊x⌋ : ℚ) + 1 - x := by
      rw [mul_comm]
      exact (le_div_iff₀ h1).mp hb
    have hnn : 0 ≤ vel * dt := mul_nonneg h1.le h0
    constructor <;> linarith
  · have hmul : (⌊x⌋ : ℚ) - x ≤ vel * dt := by
      rw [mul_comm]
      exact (le_div_iff_of_neg h2).mp hb
    have hnp : vel * dt ≤ 0 := mul_nonpos_iff.mpr (Or.inr ⟨h2.le, h0⟩)
    constructor <;> linarith
  · have hv0 : vel = 0 := le_antisymm (not_lt.mp h1) (not_lt.mp h2)
    rw [hv0]
    constructor <;> linarith

lemma stepMove_in_cell (T uv vv wv : ℚ) (p : Particle) (h : p.t ≤ T) :
    (⌊p.x⌋ : ℚ) ≤ (stepMove T uv vv wv p).x ∧
    (stepMove T uv vv wv p).x ≤ (⌊p.x⌋ : ℚ) + 1 ∧
    (⌊p.y⌋ : ℚ) ≤ (stepMove T uv vv wv p).y ∧
    (stepMove T uv vv wv p).y ≤ (⌊p.y⌋ : ℚ) + 1 ∧
    (stepMove T uv vv wv p).t ≤ T := by
  have h0 : 0 ≤ clippedDt T uv vv p := clippedDt_nonneg T uv vv p h
  have hbx : clippedDt T uv vv p ≤ timeToBoundary p.x uv (T - p.t) :=
    le_trans (min_le_right _ _) (min_le_left _ _)
  have hby : clippedDt T uv vv p ≤ timeToBoundary p.y vv (T - p.t) :=
    le_trans (min_le_right _ _) (min_le_right _ _)
  have hrem : clippedDt T uv vv p ≤ T - p.t := min_le_left _ _
  have hx := clip_in_cell p.x uv (T - p.t) (clippedDt T uv vv p) h0 hbx
  have hy := clip_in_cell p.y vv (T - p.t) (clippedDt T uv vv p) h0 hby
  refine ⟨hx.1, hx.2, hy.1, hy.2, ?_⟩
  show p.t + clippedDt T uv vv p ≤ T
  linarith

lemma subStep_cases (vf : VelField) (T : ℚ) (p : Particle) :
    subStep vf T p = p ∨
    subStep vf T p = { p with status := .exited_domain } ∨
    subStep vf T p = { p with status := .invalid_field } ∨
    ∃ uv vv wv, subStep vf T p = stepMove T uv vv wv p := by
  unfold subStep
  split_ifs with h1 h2 h3
  · exact Or.inl rfl
  · exact Or.inr (Or.inl rfl)
  · split
    · exact Or.inr (Or.inr (Or.inr ⟨_, _, _, rfl⟩))
    · exact Or.inr (Or.inr (Or.inl rfl))
  · split
    · exact Or.inr (Or.inr (Or.inr ⟨_, _, _, rfl⟩))
    · exact Or.inr (Or.inr (Or.inl rfl))

lemma subStep_frozen (vf : VelField) (T : ℚ) (p : Particle) (h : p.status ≠ .alive) :
    subStep vf T p = p := by
  simp [subStep, h]

lemma subStep_wname (vf : VelField) (T : ℚ) (p : Particle) :
    (subStep vf T p).wname = p.wname := by
  rcases subStep_cases vf T p with hc | hc | hc | ⟨uv, vv, wv, hc⟩
  · rw [hc]
  · rw [hc]
  · rw [hc]
  · rw [hc]
    rfl

lemma subStep_z (vf : VelField) (T : ℚ) (p : Particle) (h : p.wname = false) :
    (subStep vf T p).z = p.z := by
  unfold subStep
  split_ifs with h1 h2 h3
  · rfl
  · rfl
  · rw [h] at h3
    simp at h3
  · rcases hu : vf.u ⌊p.x⌋ ⌊p.y⌋ with _ | uv <;>
      rcases hv : vf.v ⌊p.x⌋ ⌊p.y⌋ with _ | vv <;>
      simp [hu, hv, stepMove]

lemma advance_frozen (vf : VelField) (fuel : ℕ) (T : ℚ) (p : Particle)
    (h : p.status ≠ .alive) : advance vf fuel T p = p := by
  cases fuel with
  | zero => rfl
  | succ k => simp [advance, h]

lemma advance_wname (vf : VelField) (fuel : ℕ) (T : ℚ) :
    ∀ p, (advance vf fuel T p).wname = p.wname := by
  induction fuel with
  | zero => intro p; rfl
  | succ k ih =>
    intro p
    simp only [advance]
    split_ifs with h
    · rw [ih (subStep vf T p), subStep_wname]
    · rfl

lemma advance_z (vf : VelField) (fuel : ℕ) (T : ℚ) :
    ∀ p, p.wname = false → (advance vf fuel T p).z = p.z := by
  induction fuel with
  | zero => intro p h; rfl
  | succ k ih =>
    intro p h
    simp only [advance]
    split_ifs with hc
    · rw [ih (subStep vf T p) (by rw [subStep_wname]; exact h), subStep_z vf T p h]
    · rfl

lemma trajectory_length (vf : VelField) (fuel : ℕ) :
    ∀ times p, (trajectory vf fuel p times).length = times.length := by
  intro times
  induction times with
  | nil => intro p; rfl
  | cons T rest ih => intro p; simp [trajectory, ih]

lemma trajectory_frozen (vf : VelField) (fuel : ℕ) :
    ∀ times p, p.status ≠ .alive →
      trajectory vf fuel p times = List.replicate times.length p := by
  intro times
  induction times with
  | nil => intro p h; rfl
  | cons T rest ih =>
    intro p h
    simp only [trajectory, advance_frozen vf fuel T p h, List.length_cons,
      List.replicate_succ]
    rw [ih p h]

lemma trajectory_padding (vf : VelField) (fuel : ℕ) :
    ∀ (times : List ℚ) (p : Particle) (j k : ℕ) (q : Particle),
      (trajectory vf fuel p times)[j]? = some q →
      q.status ≠ .alive → j ≤ k → k < times.length →
      (trajectory vf fuel p times)[k]? = some q := by
  intro times
  induction times with
  | nil =>
    intro p j k q hj hs hjk hk
    simp at hk
  | cons T rest ih =>
    intro p j k q hj hs hjk hk
    simp only [trajectory] at hj ⊢
    cases j with
    | zero =>
      simp only [List.getElem?_cons_zero, Option.some.injEq] at hj
      cases k with
      | zero => simp [hj]
      | succ k2 =>
        simp only [List.getElem?_cons_succ]
        rw [hj, trajectory_frozen vf fuel rest q hs]
        have hk2 : k2 < rest.length := by simpa using hk
        simp [List.getElem?_replicate, hk2]
    | succ j2 =>
      cases k with
      | zero => omega
      | succ k2 =>
        simp only [List.getElem?_cons_succ] at hj ⊢
        exact ih (advance vf fuel T p) j2 k2 q hj hs (by omega) (by simpa using hk)

lemma trajectory_z (vf : VelField) (fuel : ℕ) :
    ∀ (times : List ℚ) (p : Particle) (j : ℕ) (q : Particle), p.wname = false →
      (trajectory vf fuel p times)[j]? = some q → q.z = p.z := by
  intro times
  induction times with
  | nil =>
    intro p j q h hq
    simp [trajectory] at hq
  | cons T rest ih =>
    intro p j q h hq
    simp only [trajectory] at hq
    cases j with
    | zero =>
      simp only [List.getElem?_cons_zero, Option.some.injEq] at hq
      rw [← hq, advance_z vf fuel T p h]
    | succ j2 =>
      simp only [List.getElem?_cons_succ] at hq
      have h2 : (advance vf fuel T p).wname = false := by
        rw [advance_wname]; exact h
      rw [ih (advance vf fuel T p) j2 q h2 hq, advance_z vf fuel T p h]

lemma runStates_slot (vf : VelField) (fuel : ℕ) :
    ∀ (times : List ℚ) (ps : List Particle) (i : ℕ) (p : Particle), ps[i]? = some p →
      ∀ j : ℕ, ((runStates vf fuel ps times)[j]?).bind (fun l => l[i]?)
        = (trajectory vf fuel p times)[j]? := by
  intro times
  induction times with
  | nil => intro ps i p hp j; simp [runStates, trajectory]
  | cons T rest ih =>
    intro ps i p hp j
    simp only [runStates, trajectory]
    cases j with
    | zero =>
      simp [List.getElem?_map, hp]
    | succ j2 =>
      simp only [List.getElem?_cons_succ]
      exact ih (ps.map (advance vf fuel T)) i (advance vf fuel T p)
        (by simp [List.getElem?_map, hp]) j2

lemma runStates_entry_length (vf : VelField) (fuel : ℕ) :
    ∀ (times : List ℚ) (ps : List Particle) (j : ℕ) (l : List Particle),
      (runStates vf fuel ps times)[j]? = some l → l.length = ps.length := by
  intro times
  induction times with
  | nil => intro ps j l h; simp [runStates] at h
  | cons T rest ih =>
    intro ps j l h
    simp only [runStates] at h
    cases j with
    | zero =>
      simp only [List.getElem?_cons_zero, Option.some.injEq] at h
      rw [← h, List.length_map]
    | succ j2 =>
      simp only [List.getElem?_cons_succ] at h
      rw [ih (ps.map (advance vf fuel T)) j2 l h, List.length_map]

lemma runCheckpoints_length (vf : VelField) (fuel : ℕ) :
    ∀ (times : List ℚ) (ps : List Particle),
      (runCheckpoints vf fuel ps times).length = times.length := by
  intro times
  induction times with
  | nil => intro ps; rfl
  | cons T rest ih => intro ps; simp [runCheckpoints, ih]

lemma runCheckpoints_get (vf : VelField) (fuel : ℕ) :
    ∀ (times : List ℚ) (ps : List Particle) (j : ℕ) (s : Snapshot),
      (runCheckpoints vf fuel ps times)[j]? = some s →
      ∃ T l, times[j]? = some T ∧ (runStates vf fuel ps times)[j]? = some l ∧
        s = mkSnapshot vf T l := by
  intro times
  induction times with
  | nil => intro ps j s h; simp [runCheckpoints] at h
  | cons T rest ih =>
    intro ps j s h
    simp only [runCheckpoints] at h
    cases j with
    | zero =>
      simp only [List.getElem?_cons_zero, Option.some.injEq] at h
      refine ⟨T, ps.map (advance vf fuel T), by simp, ?_, h.symm⟩
      simp [runStates]
    | succ j2 =>
      simp only [List.getElem?_cons_succ] at h
      obtain ⟨T2, l, h1, h2, h3⟩ := ih (ps.map (advance vf fuel T)) j2 s h
      refine ⟨T2, l, by simpa using h1, ?_, h3⟩
      simp only [runStates, List.getElem?_cons_succ]
      exact h2

lemma runCheckpoints_time (vf : VelField) (fuel : ℕ) :
    ∀ (times : List ℚ) (ps : List Particle) (j : ℕ),
      ((runCheckpoints vf fuel ps times)[j]?).map (fun s => s.time) = times[j]? := by
  intro times
  induction times with
  | nil => intro ps j; simp [runCheckpoints]
  | cons T rest ih =>
    intro ps j
    simp only [runCheckpoints]
    cases j with
    | zero => simp [mkSnapshot]
    | succ j2 =>
      simp only [List.getElem?_cons_succ]
      exact ih (ps.map (advance vf fuel T)) j2

lemma runCheckpoints_slots (vf : VelField) (fuel : ℕ)
    (times : List ℚ) (ps : List Particle) (i : ℕ) (p : Particle) (hp : ps[i]? = some p)
    (j : ℕ) (s : Snapshot) (hs : (runCheckpoints vf fuel ps times)[j]? = some s) :
    ∃ q : Particle, (trajectory vf fuel p times)[j]? = some q ∧
      s.lon[i]? = some q.x ∧ s.lat[i]? = some q.y ∧ s.dep[i]? = some q.z ∧
      s.u[i]? = some (snapU vf q) ∧ s.v[i]? = some (snapV vf q) ∧
      s.dx[i]? = some (snapDx vf q) ∧ s.dy[i]? = some (snapDy vf q) ∧
      s.status[i]? = some q.status := by
  obtain ⟨T, l, hT, hl, hmk⟩ := runCheckpoints_get vf fuel times ps j s hs
  have hslot := runStates_slot vf fuel times ps i p hp j
  rw [hl] at hslot
  simp only [Option.some_bind] at hslot
  have hi : i < ps.length := by
    by_contra hlt
    push_neg at hlt
    rw [List.getElem?_eq_none hlt] at hp
    exact absurd hp (by simp)
  have hlen : l.length = ps.length := runStates_entry_length vf fuel times ps j l hl
  rcases hq : l[i]? with _ | q
  · rw [List.getElem?_eq_none_iff] at hq
    omega
  · refine ⟨q, by rw [← hslot, hq], ?_, ?_, ?_, ?_, ?_, ?_, ?_, ?_⟩ <;>
      (rw [hmk]; simp [mkSnapshot, List.getElem?_map, hq])

lemma runCheckpoints_lon_slot (vf : VelField) (fuel : ℕ)
    (times : List ℚ) (ps : List Particle) (i : ℕ) (p : Particle) (hp : ps[i]? = some p)
    (j : ℕ) :
    ((runCheckpoints vf fuel ps times)[j]?).bind (fun s => s.lon[i]?)
      = ((trajectory vf fuel p times)[j]?).map (fun q => q.x) := by
  rcases hs : (runCheckpoints vf fuel ps times)[j]? with _ | s
  · rw [List.getElem?_eq_none_iff, runCheckpoints_length] at hs
    rw [List.getElem?_eq_none (by rw [trajectory_length]; exact hs)]
    rfl
  · obtain ⟨q, htraj, hlon, _, _, _, _, _, _, _⟩ :=
      runCheckpoints_slots vf fuel times ps i p hp j s hs
    rw [htraj]
    simp only [Option.some_bind]
    rw [hlon]
    rfl

/-- A concrete uniform velocity field for evaluating the theorems:
grid-relative u = 1, v = 0, w = 0 everywhere, unit physical extents,
every cell inside the domain. -/
def vf0 : VelField :=
  ⟨fun _ _ => some 1, fun _ _ => some 0, fun _ _ => some 0,
    fun _ _ => 1, fun _ _ => 1, fun _ _ => true⟩

/-- A concrete particle at the origin at time zero, alive, with
wname = None. -/
def p0 : Particle := ⟨0, 0, 0, 0, .alive, false⟩

/-- The state of p0 after advancing to time 1 in vf0: it moved one
cell width east and kept its depth. -/
def p1 : Particle := ⟨1, 0, 0, 1, .alive, false⟩

/-- A particle already in a terminal state. -/
def pT : Particle := ⟨0, 0, 0, 0, .exited_domain, false⟩

lemma subStep_vf0_eval : subStep vf0 1 p0 = p1 := by
  unfold subStep
  norm_num [vf0, p0, p1, stepMove, clippedDt, timeToBoundary]

lemma advance_vf0_eval : advance vf0 1 1 p0 = p1 := by
  have h0 : advance vf0 0 1 (subStep vf0 1 p0) = subStep vf0 1 p0 := rfl
  have hc : p0.status = PStatus.alive ∧ p0.t < 1 := by
    refine ⟨rfl, ?_⟩
    norm_num [p0]
  rw [advance, if_pos hc, h0, subStep_vf0_eval]

/-- C1: a sub-step of the integrator never moves a particle past the
boundary of the unit cell whose velocity it used — the sub-step length
is clipped to the minimum of the remaining time-to-target and the
estimated times-to-cell-boundary — and it never overshoots the target
time.  advance only invokes subStep under its guard p.t < T, so the
hypothesis holds at every sub-step advance (and hence to_list_of_time)
takes, and the conclusion re-establishes it for the next sub-step. -/
theorem C1_substep_never_leaves_cell (vf : VelField) (T : ℚ) (p : Particle)
    (h : p.t ≤ T) :
    (⌊p.x⌋ : ℚ) ≤ (subStep vf T p).x ∧ (subStep vf T p).x ≤ (⌊p.x⌋ : ℚ) + 1 ∧
    (⌊p.y⌋ : ℚ) ≤ (subStep vf T p).y ∧ (subStep vf T p).y ≤ (⌊p.y⌋ : ℚ) + 1 ∧
    (subStep vf T p).t ≤ T := by
  have hflx : (⌊p.x⌋ : ℚ) ≤ p.x := Int.floor_le p.x
  have hfux : p.x < (⌊p.x⌋ : ℚ) + 1 := Int.lt_floor_add_one p.x
  have hfly : (⌊p.y⌋ : ℚ) ≤ p.y := Int.floor_le p.y
  have hfuy : p.y < (⌊p.y⌋ : ℚ) + 1 := Int.lt_floor_add_one p.y
  rcases subStep_cases vf T p with hc | hc | hc | ⟨uv, vv, wv, hc⟩ <;> rw [hc]
  · exact ⟨hflx, hfux.le, hfly, hfuy.le, h⟩
  · exact ⟨hflx, hfux.le, hfly, hfuy.le, h⟩
  · exact ⟨hflx, hfux.le, hfly, hfuy.le, h⟩
  · exact stepMove_in_cell T uv vv wv p h

/-- Witness for C1 at a concrete velocity field, particle and target
time. -/
theorem C1_witness :
    p0.t ≤ 10 ∧
    ((⌊p0.x⌋ : ℚ) ≤ (subStep vf0 10 p0).x ∧
     (subStep vf0 10 p0).x ≤ (⌊p0.x⌋ : ℚ) + 1 ∧
     (⌊p0.y⌋ : ℚ) ≤ (subStep vf0 10 p0).y ∧
     (subStep vf0 10 p0).y ≤ (⌊p0.y⌋ : ℚ) + 1 ∧
     (subStep vf0 10 p0).t ≤ 10) :=
  ⟨by norm_num [p0], C1_substep_never_leaves_cell vf0 10 p0 (by norm_num [p0])⟩

/-- C4: determinism — two runs of to_list_of_time whose velocity
fields, step bounds, initial particles and checkpoint lists are equal
produce equal (stops, trajectory) outputs.  In this purely functional
model the result depends on nothing but those inputs, so bit-for-bit
reproducibility holds by construction. -/
theorem C4_deterministic (vf1 vf2 : VelField) (fuel1 fuel2 : ℕ)
    (ps1 ps2 : List Particle) (times1 times2 : List ℚ)
    (hvf : vf1 = vf2) (hfuel : fuel1 = fuel2) (hps : ps1 = ps2)
    (ht : times1 = times2) :
    to_list_of_time vf1 fuel1 ps1 times1 = to_list_of_time vf2 fuel2 ps2 times2 := by
  rw [hvf, hfuel, hps, ht]

/-- Witness for C4 at concrete inputs. -/
theorem C4_witness :
    to_list_of_time vf0 1 [p0] [1] = to_list_of_time vf0 1 [p0] [1] :=
  C4_deterministic vf0 vf0 1 1 [p0] [p0] [1] [1] rfl rfl rfl rfl

/-- C5: one particle entering a terminal state does not disturb the
rest of the batch — a slot of the output depends only on the particle
in the same input slot, whatever the other particles are — and after
the checkpoint at which a particle is terminal every later checkpoint
repeats exactly that state (padding with the last recorded state, no
extrapolation). -/
theorem C5_terminal_isolated_and_padded (vf : VelField) (fuel : ℕ)
    (times : List ℚ) (ps qs : List Particle) (i : ℕ) (p : Particle)
    (hp : ps[i]? = some p) (hq : qs[i]? = some p) :
    (∀ j : ℕ, ((to_list_of_time vf fuel ps times).2[j]?).bind (fun s => s.lon[i]?)
        = ((to_list_of_time vf fuel qs times).2[j]?).bind (fun s => s.lon[i]?)) ∧
    (∀ (j k : ℕ) (q : Particle), (trajectory vf fuel p times)[j]? = some q →
      q.status ≠ .alive → j ≤ k → k < times.length →
      (trajectory vf fuel p times)[k]? = some q) := by
  constructor
  · intro j
    rw [show (to_list_of_time vf fuel ps times).2 = runCheckpoints vf fuel ps times from rfl,
      show (to_list_of_time vf fuel qs times).2 = runCheckpoints vf fuel qs times from rfl,
      runCheckpoints_lon_slot vf fuel times ps i p hp j,
      runCheckpoints_lon_slot vf fuel times qs i p hq j]
  · exact fun j k q h1 h2 h3 h4 => trajectory_padding vf fuel times p j k q h1 h2 h3 h4

/-- Witness for C5: the batch [p0] against the batch [p0, pT] whose
second particle is already terminal. -/
theorem C5_witness :
    (∀ j : ℕ, ((to_list_of_time vf0 1 [p0] [1]).2[j]?).bind (fun s => s.lon[0]?)
        = ((to_list_of_time vf0 1 [p0, pT] [1]).2[j]?).bind (fun s => s.lon[0]?)) ∧
    (∀ (j k : ℕ) (q : Particle), (trajectory vf0 1 p0 [1])[j]? = some q →
      q.status ≠ .alive → j ≤ k → k < ([1] : List ℚ).length →
      (trajectory vf0 1 p0 [1])[k]? = some q) :=
  C5_terminal_isolated_and_padded vf0 1 [1] [p0] [p0, pT] 0 p0 rfl rfl

/-- C6: order preservation — the j-th snapshot of a trajectory run
carries the j-th requested checkpoint time, the i-th slot of each
snapshot is the state of the i-th input particle (advanced along its
own trajectory), and the i-th output of a batch interpolation is the
interpolation of the i-th input point. -/
theorem C6_order_preserved (vf : VelField) (fuel : ℕ)
    (ps : List Particle) (times : List ℚ) (fld : Field) (kn : KnW)
    (pts : List (ℚ × ℚ)) (i j : ℕ) (p : Particle) (T : ℚ)
    (hp : ps[i]? = some p) (hT : times[j]? = some T) :
    (((to_list_of_time vf fuel ps times).2[j]?).map (fun s => s.time) = some T) ∧
    (((to_list_of_time vf fuel ps times).2[j]?).bind (fun s => s.lon[i]?)
      = ((trajectory vf fuel p times)[j]?).map (fun q => q.x)) ∧
    ((interpolateBatch fld kn pts)[i]?
      = (pts[i]?).map (fun q => interpolate fld kn q.1 q.2)) := by
  refine ⟨?_, runCheckpoints_lon_slot vf fuel times ps i p hp j, ?_⟩
  · rw [show (to_list_of_time vf fuel ps times).2 = runCheckpoints vf fuel ps times from rfl,
      runCheckpoints_time]
    exact hT
  · simp [interpolateBatch, List.getElem?_map]

/-- Witness for C6 at concrete inputs. -/
theorem C6_witness :
    (((to_list_of_time vf0 1 [p0] [1]).2[0]?).map (fun s => s.time) = some 1) ∧
    (((to_list_of_time vf0 1 [p0] [1]).2[0]?).bind (fun s => s.lon[0]?)
      = ((trajectory vf0 1 p0 [1])[0]?).map (fun q => q.x)) ∧
    ((interpolateBatch onesField KnW.default [(0, 0)])[0]?
      = (([((0 : ℚ), (0 : ℚ))])[0]?).map (fun q => interpolate onesField KnW.default q.1 q.2)) :=
  C6_order_preserved vf0 1 [p0] [1] onesField KnW.default [(0, 0)] 0 0 p0 1 rfl rfl

/-- C9: to_list_of_time returns the pair (stops, raw) where stops is
the requested checkpoint list and raw holds exactly one snapshot per
checkpoint; every per-particle array of a snapshot has one slot per
input particle, and the squared physical speed hypot(u dx, v dy)^2 of
slot i is recoverable from the snapshot fields and equals its value at
the state of particle i at that checkpoint. -/
theorem C9_snapshot_structure (vf : VelField) (fuel : ℕ)
    (ps : List Particle) (times : List ℚ) :
    (to_list_of_time vf fuel ps times).1 = times ∧
    (to_list_of_time vf fuel ps times).2.length = times.length ∧
    (∀ (j : ℕ) (s : Snapshot), (to_list_of_time vf fuel ps times).2[j]? = some s →
      s.lon.length = ps.length ∧ s.lat.length = ps.length ∧
      s.dep.length = ps.length ∧ s.u.length = ps.length ∧
      s.v.length = ps.length ∧ s.dx.length = ps.length ∧
      s.dy.length = ps.length ∧
      (∀ (i : ℕ) (p : Particle), ps[i]? = some p →
        ∃ q : Particle, (trajectory vf fuel p times)[j]? = some q ∧
          physSpeedSq s i
            = some ((snapU vf q * snapDx vf q) ^ 2 + (snapV vf q * snapDy vf q) ^ 2))) := by
  refine ⟨rfl, runCheckpoints_length vf fuel times ps, ?_⟩
  intro j s hs
  obtain ⟨T, l, hT, hl, hmk⟩ := runCheckpoints_get vf fuel times ps j s hs
  have hlen := runStates_entry_length vf fuel times ps j l hl
  refine ⟨by rw [hmk]; simp [mkSnapshot, hlen], by rw [hmk]; simp [mkSnapshot, hlen],
    by rw [hmk]; simp [mkSnapshot, hlen], by rw [hmk]; simp [mkSnapshot, hlen],
    by rw [hmk]; simp [mkSnapshot, hlen], by rw [hmk]; simp [mkSnapshot, hlen],
    by rw [hmk]; simp [mkSnapshot, hlen], ?_⟩
  intro i p hp
  obtain ⟨q, htraj, _, _, _, hu, hv, hdx, hdy, _⟩ :=
    runCheckpoints_slots vf fuel times ps i p hp j s hs
  exact ⟨q, htraj, by simp [physSpeedSq, hu, hv, hdx, hdy]⟩

/-- Witness for C9: the inner quantifiers discharged at the concrete
run of one particle to one checkpoint. -/
theorem C9_witness :
    (to_list_of_time vf0 1 [p0] [1]).1 = [1] ∧
    (to_list_of_time vf0 1 [p0] [1]).2.length = 1 ∧
    ∃ q : Particle, (trajectory vf0 1 p0 [1])[0]? = some q ∧
      physSpeedSq (mkSnapshot vf0 1 [p1]) 0
        = some ((snapU vf0 q * snapDx vf0 q) ^ 2 + (snapV vf0 q * snapDy vf0 q) ^ 2) := by
  obtain ⟨h1, h2, h3⟩ := C9_snapshot_structure vf0 1 [p0] [(1 : ℚ)]
  have hs : (to_list_of_time vf0 1 [p0] [(1 : ℚ)]).2[0]? = some (mkSnapshot vf0 1 [p1]) := by
    simp [to_list_of_time, runCheckpoints, advance_vf0_eval]
  obtain ⟨hl1, hl2, hl3, hl4, hl5, hl6, hl7, hsp⟩ := h3 0 (mkSnapshot vf0 1 [p1]) hs
  exact ⟨h1, by simpa using h2, hsp 0 p0 rfl⟩

/-- C10: a particle constructed with wname = None moves on a
horizontal surface — its depth at every checkpoint equals its initial
depth — while longitude can change (witnessed by a concrete particle
that moves east one cell width at constant depth). -/
theorem C10_isobaric (vf : VelField) (fuel : ℕ) (times : List ℚ)
    (p : Particle) (j : ℕ) (q : Particle)
    (hw : p.wname = false) (hq : (trajectory vf fuel p times)[j]? = some q) :
    q.z = p.z ∧
    ∃ (vf2 : VelField) (fuel2 : ℕ) (times2 : List ℚ) (p2 q2 : Particle),
      p2.wname = false ∧ (trajectory vf2 fuel2 p2 times2)[0]? = some q2 ∧
      q2.x ≠ p2.x ∧ q2.z = p2.z := by
  refine ⟨trajectory_z vf fuel times p j q hw hq,
    vf0, 1, [1], p0, p1, rfl, ?_, by norm_num [p0, p1], rfl⟩
  simp [trajectory, advance_vf0_eval]

/-- Witness for C10 at a concrete run. -/
theorem C10_witness :
    p0.wname = false ∧ (trajectory vf0 1 p0 [1])[0]? = some p1 ∧ p1.z = p0.z := by
  have hq : (trajectory vf0 1 p0 [(1 : ℚ)])[0]? = some p1 := by
    simp [trajectory, advance_vf0_eval]
  exact ⟨rfl, hq, (C10_isobaric vf0 1 [1] p0 0 p1 rfl hq).1⟩

end Seaduck
